import Mathlib

/-!
# Verification of the mirage config-file persistence layer

Shallow embedding of `src/backend/config_files.py`: the debounced write
loop of `ConfigFile`, the default-merging `read` of `JSONConfigFile`, the
`Accounts` operations and `Theme.read`, together with proofs of the
specified properties.

JSON values decoded by Python's `json` module are modelled by the
inductive type `Json`; Python `dict`s become association lists
(`JsonData`), which is faithful for the dictionaries appearing here
because every Python dict has pairwise-distinct keys (captured by the
`noDupKeys`/`Json.wf` predicates where a proof needs it).
-/

/-- A JSON value as decoded by Python's `json.loads`: `None`, booleans,
numbers, strings, lists and string-keyed dictionaries. Dictionaries are
association lists in insertion order, mirroring CPython dicts. -/
inductive Json where
  | null : Json
  | bool : Bool → Json
  | num : Int → Json
  | str : String → Json
  | arr : List Json → Json
  | obj : List (String × Json) → Json

/-- A decoded top-level JSON object (a Python dict). -/
abbrev JsonData := List (String × Json)

/-- `dict[k]` lookup on a Python dict modelled as an association list:
the first binding of the key, if any. -/
def lookupKey : JsonData → String → Option Json
  | [], _ => none
  | (k', v) :: rest, k => if k' = k then some v else lookupKey rest k

/-- `dict[k] = v` on a Python dict: replace the value at an existing key
in place (keeping its position), otherwise append the new binding. -/
def setKey : JsonData → String → Json → JsonData
  | [], k, v => [(k, v)]
  | (k', v') :: rest, k, v =>
      if k' = k then (k, v) :: rest else (k', v') :: setKey rest k v

mutual

/-- Modelled from the spec: `dict_update_recursive` lives in
`src/backend/utils.py`, which is not part of the provided sources; the
spec describes it as "for each key present in the decoded content, if
both the default and decoded values at that key are mappings, merge
recursively; otherwise the decoded value overwrites the default value at
that key. Keys absent from decoded content retain their default value."
`mergeList d m` merges decoded object `m` into default object `d`. -/
def mergeList : JsonData → JsonData → JsonData
  | d, [] => d
  | d, (k, mv) :: rest => mergeList (mergeEntry d k mv) rest

/-- Process one decoded binding `(k, mv)` against the default object:
replace the default value at `k` by `mergeJ` of the two (in place), or
append the binding if `k` is absent from the default. -/
def mergeEntry : JsonData → String → Json → JsonData
  | [], k, mv => [(k, mv)]
  | (k', dv) :: d, k, mv =>
      if k' = k then (k', mergeJ dv mv) :: d
      else (k', dv) :: mergeEntry d k mv

/-- Merge one decoded value into one default value: recurse when both
are objects, otherwise the decoded value wins. -/
def mergeJ : Json → Json → Json
  | .obj d, .obj m => .obj (mergeList d m)
  | _, mv => mv

end

/-- A value found by `lookupKey` is a strict subterm of the list. -/
theorem lookupKey_sizeOf {l : JsonData} {k : String} {v : Json}
    (h : lookupKey l k = some v) : sizeOf v < sizeOf l := by
  induction l with
  | nil => simp [lookupKey] at h
  | cons p rest ih =>
      obtain ⟨k', v'⟩ := p
      simp only [lookupKey] at h
      split at h
      · cases h
        simp
        omega
      · have := ih h
        simp
        omega

mutual

/-- Python `==` on decoded JSON values: numbers, strings and booleans
compare by value, lists elementwise, and dicts as finite maps (equal
size and every binding of the left dict present with an equal value in
the right dict) — insertion order is irrelevant, exactly as for CPython
dicts with distinct keys. -/
def pyEq : Json → Json → Bool
  | .null, .null => true
  | .bool a, .bool b => a == b
  | .num a, .num b => a == b
  | .str a, .str b => a == b
  | .arr a, .arr b => pyEqList a b
  | .obj a, .obj b => a.length == b.length && pyEqSub a b
  | _, _ => false
termination_by a b => sizeOf a + sizeOf b
decreasing_by
  all_goals simp_wf <;> omega

/-- Elementwise Python `==` on two lists. -/
def pyEqList : List Json → List Json → Bool
  | [], [] => true
  | x :: xs, y :: ys => pyEq x y && pyEqList xs ys
  | _, _ => false
termination_by a b => sizeOf a + sizeOf b
decreasing_by
  all_goals simp_wf <;> omega

/-- Every binding of the first dict is present in the second with an
equal value. -/
def pyEqSub : JsonData → JsonData → Bool
  | [], _ => true
  | (k, v) :: rest, b =>
      (match h : lookupKey b k with
       | some w => pyEq v w
       | none => false) && pyEqSub rest b
termination_by a b => sizeOf a + sizeOf b
decreasing_by
  all_goals simp_wf
  all_goals first
    | omega
    | (have hs := lookupKey_sizeOf h; omega)

end

/-- Python `==` on two dicts (`data != all_data` in the source negates
this). -/
def pyEqData (a b : JsonData) : Bool := pyEq (.obj a) (.obj b)

/-! ## The base `ConfigFile` contract and its write loop

State of one `ConfigFile` instance: the `_to_write` pending slot, the
file at the resolved path (`none` = absent), the values flushed to disk
so far (to count disk writes), and whether the `_write_loop` task is
still running. -/

structure CState where
  toWrite : Option String
  disk : Option String
  flushed : List String
  loopAlive : Bool
deriving Repr, DecidableEq

/-- `ConfigFile.write`: stage the serialized value into the pending
slot, overwriting any previous pending value; returns immediately. -/
def ConfigFile.write (data : String) (s : CState) : CState :=
  { s with toWrite := some data }

/-- `ConfigFile.read`: `self.path.read_text()` — returns the file's text
or raises `FileNotFoundError` when the resolved path does not exist. -/
def ConfigFile.read (s : CState) : Except Unit String :=
  match s.disk with
  | some txt => .ok txt
  | none => .error ()

/-- One iteration of `ConfigFile._write_loop`. If the task is alive and
a pending value exists, the value is written to the path (fully
replacing the file) and the slot cleared; if the file write raises
(`ioOk = false`), the exception propagates out of the `while True:`
loop, terminating the task with the slot not cleared. Without a pending
value the tick is a no-op. -/
def writeLoopTick (ioOk : Bool) (s : CState) : CState :=
  if s.loopAlive then
    match s.toWrite with
    | none => s
    | some v =>
        if ioOk then
          { s with disk := some v, toWrite := none, flushed := s.flushed ++ [v] }
        else
          { s with loopAlive := false }
  else s

/-- Externally visible events of one document: a `write` call, or a
flush tick of the background loop (with the fate of its file I/O). -/
inductive BaseEv where
  | write (data : String)
  | tick (ioOk : Bool)

/-- Apply one event to a `ConfigFile` state. -/
def baseStep (e : BaseEv) (s : CState) : CState :=
  match e with
  | .write data => ConfigFile.write data s
  | .tick ioOk => writeLoopTick ioOk s

/-- Run a sequence of events. -/
def baseRun (es : List BaseEv) (s : CState) : CState :=
  es.foldl (fun s e => baseStep e s) s

/-- `Theme.read`: if the resolved path does not exist, stage the bundled
default theme content via `self.write` (which only fills the pending
slot), then read the file via the base `read` and pass it through the
external markup converter. `convert` models `convert_to_qml` and
`defaultTheme` the bundled `Default.qpl` resource text. -/
def Theme.read (convert : String → String) (defaultTheme : String)
    (s : CState) : Except Unit String × CState :=
  let s1 := if s.disk = none then ConfigFile.write defaultTheme s else s
  match ConfigFile.read s1 with
  | .ok txt => (.ok (convert txt), s1)
  | .error e => (.error e, s1)

/-! ## The `JSONConfigFile` layer

For JSON documents the observable state is the decoded on-disk content
(absent, undecodable, or a stored top-level object) and the pending
slot. `JSONConfigFile.write` serializes with
`json.dumps(data, indent=4, ensure_ascii=False, sort_keys=True)` and a
later `json.loads` decodes that text back to an `==`-equal dict, so the
string round-trip through the base layer is modelled at the value
level. -/

inductive JDisk where
  | missing
  | corrupt
  | stored (content : JsonData)

structure JState where
  disk : JDisk
  pending : Option JsonData

/-- `json.loads` of the file at the path, with the
`except (FileNotFoundError, json.JSONDecodeError): data = {}` recovery
of `JSONConfigFile.read`. -/
def decodedData : JDisk → JsonData
  | .stored m => m
  | .missing => []
  | .corrupt => []

/-- `JSONConfigFile.write`: serialize deterministically and stage into
the pending slot. -/
def JSONConfigFile.write (data : JsonData) (s : JState) : JState :=
  { s with pending := some data }

/-- `JSONConfigFile.read`: decode the file (absent/corrupt ⇒ `{}`),
merge the decoded content into `default_data()`, stage a write of the
merged result when it differs (Python `!=`) from the decoded content,
and return the merged result. `dflt` models the document's
`default_data()`. -/
def JSONConfigFile.read (dflt : JsonData) (s : JState) : JsonData × JState :=
  let data := decodedData s.disk
  let all_data := mergeList dflt data
  if pyEqData data all_data then (all_data, s)
  else (all_data, JSONConfigFile.write all_data s)

/-- A successful flush tick at the JSON level: the pending value reaches
disk and the slot is cleared; without a pending value, a no-op. -/
def flushTick (s : JState) : JState :=
  match s.pending with
  | none => s
  | some v => { disk := .stored v, pending := none }

/-! ## The `Accounts` document

`Accounts` inherits `JSONConfigFile` and does not override
`default_data`, so its default schema is `{}`. -/

/-- The fields of `self.backend.clients[user_id]` consumed by
`Accounts.add`. -/
structure Client where
  user_id : String
  homeserver : String
  access_token : String
  device_id : String

/-- The account entry `Accounts.add` stores for a client. -/
def clientEntry (c : Client) : Json :=
  .obj [("homeserver", .str c.homeserver),
        ("token", .str c.access_token),
        ("device_id", .str c.device_id)]

/-- `Accounts.add`: read the current mapping, extend it with the entry
for `clients user_id` (keyed by the client's `user_id`, replacing any
existing binding), and write the result back. -/
def Accounts.add (clients : String → Client) (user_id : String)
    (s : JState) : JState :=
  let c := clients user_id
  let r := JSONConfigFile.read [] s
  JSONConfigFile.write (setKey r.1 c.user_id (clientEntry c)) r.2

/-- `Accounts.delete`: read the current mapping and write back the
mapping with any binding for `user_id` removed. -/
def Accounts.delete (user_id : String) (s : JState) : JState :=
  let r := JSONConfigFile.read [] s
  JSONConfigFile.write (r.1.filter fun p => p.1 != user_id) r.2

/-! ## Wellformedness

A Python dict has pairwise-distinct keys; everything `json.loads` or
`default_data` produces satisfies this at every nesting level. -/

/-- Keys of an object, in order. -/
def keysOf (l : JsonData) : List String := l.map Prod.fst

/-- No two bindings of this object share a key. -/
def noDupKeys : JsonData → Bool
  | [] => true
  | (k, _) :: rest => (lookupKey rest k).isNone && noDupKeys rest

mutual

/-- Every object nested anywhere inside the value has pairwise-distinct
keys. -/
def Json.wf : Json → Bool
  | .arr xs => wfList xs
  | .obj kvs => noDupKeys kvs && wfObj kvs
  | _ => true

/-- All members of the list are wellformed. -/
def wfList : List Json → Bool
  | [] => true
  | x :: xs => x.wf && wfList xs

/-- All values of the object are wellformed. -/
def wfObj : JsonData → Bool
  | [] => true
  | (_, v) :: rest => v.wf && wfObj rest

end

/-- Wellformed on-disk state: stored content is a wellformed dict. -/
def JDisk.wf : JDisk → Bool
  | .stored m => noDupKeys m && wfObj m
  | _ => true

/-! ## Lemmas about `lookupKey`, `setKey`, `mergeEntry` -/

/-- `mergeJ` of an optional default value and a decoded value: the
value that ends up at a key the decoded object supplies. -/
def mergeOpt : Option Json → Json → Json
  | some dv, mv => mergeJ dv mv
  | none, mv => mv

/-- Combined lookup behaviour of a merged object at one key. -/
def mergeLook : Option Json → Option Json → Option Json
  | o, some mv => some (mergeOpt o mv)
  | o, none => o

theorem lookupKey_none_iff {l : JsonData} {k : String} :
    lookupKey l k = none ↔ k ∉ keysOf l := by
  induction l with
  | nil => simp [lookupKey, keysOf]
  | cons p rest ih =>
      obtain ⟨k', v'⟩ := p
      by_cases h : k' = k <;> simp [lookupKey, keysOf, h] at ih ⊢ <;>
        simp [ih, Ne.symm h]

theorem lookupKey_isSome_of_mem {l : JsonData} {k : String} {v : Json}
    (h : (k, v) ∈ l) : (lookupKey l k).isSome := by
  induction l with
  | nil => simp at h
  | cons p rest ih =>
      obtain ⟨k', v'⟩ := p
      rcases List.mem_cons.1 h with h1 | h1
      · cases h1
        simp [lookupKey]
      · by_cases hk : k' = k <;> simp [lookupKey, hk, ih h1]

theorem mem_of_lookupKey {l : JsonData} {k : String} {v : Json}
    (h : lookupKey l k = some v) : (k, v) ∈ l := by
  induction l with
  | nil => simp [lookupKey] at h
  | cons p rest ih =>
      obtain ⟨k', v'⟩ := p
      simp only [lookupKey] at h
      split at h
      · rename_i heq
        cases h
        simp [heq]
      · simp [ih h]

theorem lookup_mergeEntry_self (d : JsonData) (k : String) (mv : Json) :
    lookupKey (mergeEntry d k mv) k = some (mergeOpt (lookupKey d k) mv) := by
  induction d with
  | nil => simp [mergeEntry, lookupKey, mergeOpt]
  | cons p rest ih =>
      obtain ⟨k', dv⟩ := p
      by_cases h : k' = k
      · simp [mergeEntry, lookupKey, h, mergeOpt]
      · simp [mergeEntry, lookupKey, h, ih]

theorem lookup_mergeEntry_ne (d : JsonData) (k : String) (mv : Json)
    {k₂ : String} (hne : k₂ ≠ k) :
    lookupKey (mergeEntry d k mv) k₂ = lookupKey d k₂ := by
  have hkk : k ≠ k₂ := fun h => hne h.symm
  induction d with
  | nil => simp [mergeEntry, lookupKey, hkk]
  | cons p rest ih =>
      obtain ⟨k', dv⟩ := p
      by_cases h : k' = k
      · subst h
        simp [mergeEntry, lookupKey, hkk]
      · simp only [mergeEntry, if_neg h]
        by_cases h2 : k' = k₂ <;> simp [lookupKey, h2, ih]

theorem keys_mergeEntry_found {d : JsonData} {k : String} {dv : Json}
    (h : lookupKey d k = some dv) (mv : Json) :
    keysOf (mergeEntry d k mv) = keysOf d := by
  induction d with
  | nil => simp [lookupKey] at h
  | cons p rest ih =>
      obtain ⟨k', dv'⟩ := p
      simp only [lookupKey] at h
      split at h
      · rename_i heq
        simp [mergeEntry, heq, keysOf]
      · rename_i heq
        simp [mergeEntry, heq, keysOf] at ih ⊢
        exact ih h

theorem keys_mergeEntry_notfound {d : JsonData} {k : String}
    (h : lookupKey d k = none) (mv : Json) :
    keysOf (mergeEntry d k mv) = keysOf d ++ [k] := by
  induction d with
  | nil => simp [mergeEntry, keysOf]
  | cons p rest ih =>
      obtain ⟨k', dv'⟩ := p
      simp only [lookupKey] at h
      split at h
      · simp at h
      · rename_i heq
        simp [mergeEntry, heq, keysOf] at ih ⊢
        exact ih h

theorem noDupKeys_mergeEntry {d : JsonData} (hd : noDupKeys d = true)
    (k : String) (mv : Json) : noDupKeys (mergeEntry d k mv) = true := by
  induction d with
  | nil => simp [mergeEntry, noDupKeys, lookupKey]
  | cons p rest ih =>
      obtain ⟨k', dv⟩ := p
      simp only [noDupKeys, Bool.and_eq_true, Option.isNone_iff_eq_none] at hd
      by_cases h : k' = k
      · simp [mergeEntry, h, noDupKeys, hd.1, hd.2]
        subst h
        simp [hd.1]
      · simp [mergeEntry, h, noDupKeys, ih hd.2,
          lookup_mergeEntry_ne rest k mv h, hd.1]

/-! ## Lemmas about `mergeList` -/

theorem mergeList_nil (d : JsonData) : mergeList d [] = d := by
  simp [mergeList]

theorem mergeList_cons (d : JsonData) (k : String) (mv : Json)
    (rest : JsonData) :
    mergeList d ((k, mv) :: rest) = mergeList (mergeEntry d k mv) rest := by
  simp [mergeList]

/-- Lookup in a merged object, for decoded content with distinct keys:
keys of the decoded object get the decoded value (merged with the
default value when both are objects); other keys keep the default. -/
theorem lookup_merge {m : JsonData} (hm : noDupKeys m = true)
    (d : JsonData) (k : String) :
    lookupKey (mergeList d m) k = mergeLook (lookupKey d k) (lookupKey m k) := by
  induction m generalizing d with
  | nil => simp [mergeList_nil, lookupKey, mergeLook]
  | cons p rest ih =>
      obtain ⟨k₁, mv⟩ := p
      simp only [noDupKeys, Bool.and_eq_true, Option.isNone_iff_eq_none] at hm
      rw [mergeList_cons]
      by_cases hk : k₁ = k
      · subst hk
        rw [ih hm.2, hm.1, lookup_mergeEntry_self]
        simp [lookupKey, mergeLook]
      · rw [ih hm.2, lookup_mergeEntry_ne d k₁ mv (fun h => hk h.symm)]
        simp [lookupKey, hk]

/-- Keys of a merged object, for decoded content with distinct keys:
the default's keys in order, then the decoded object's new keys. -/
theorem keys_merge {m : JsonData} (hm : noDupKeys m = true) (d : JsonData) :
    keysOf (mergeList d m)
      = keysOf d ++ keysOf (m.filter fun p => (lookupKey d p.1).isNone) := by
  induction m generalizing d with
  | nil => simp [mergeList_nil, keysOf]
  | cons p rest ih =>
      obtain ⟨k₁, mv⟩ := p
      simp only [noDupKeys, Bool.and_eq_true, Option.isNone_iff_eq_none] at hm
      rw [mergeList_cons, ih hm.2]
      have hrest : (rest.filter fun p => (lookupKey (mergeEntry d k₁ mv) p.1).isNone)
          = rest.filter fun p => (lookupKey d p.1).isNone := by
        apply List.filter_congr
        intro p hp
        have hpk : p.1 ≠ k₁ := by
          intro he
          have : (lookupKey rest k₁).isSome := by
            obtain ⟨pk, pv⟩ := p
            cases he
            exact lookupKey_isSome_of_mem hp
          rw [hm.1] at this
          simp at this
        rw [lookup_mergeEntry_ne d k₁ mv hpk]
      rw [hrest]
      cases hd : lookupKey d k₁ with
      | some dv =>
          rw [keys_mergeEntry_found hd mv]
          simp [hd]
      | none =>
          rw [keys_mergeEntry_notfound hd mv]
          simp [hd, keysOf, List.append_assoc]

/-- Every key of the default object survives into the merged object
(no wellformedness needed). -/
theorem keys_merge_superset (m : JsonData) (d : JsonData) {k : String}
    (h : k ∈ keysOf d) : k ∈ keysOf (mergeList d m) := by
  induction m generalizing d with
  | nil => simpa [mergeList_nil] using h
  | cons p rest ih =>
      obtain ⟨k₁, mv⟩ := p
      rw [mergeList_cons]
      apply ih
      cases hd : lookupKey d k₁ with
      | some dv => rwa [keys_mergeEntry_found hd mv]
      | none =>
          rw [keys_mergeEntry_notfound hd mv]
          exact List.mem_append_left _ h

/-- Merging preserves distinctness of keys. -/
theorem noDupKeys_merge {d m : JsonData} (hd : noDupKeys d = true)
    (hm : noDupKeys m = true) : noDupKeys (mergeList d m) = true := by
  induction m generalizing d with
  | nil => simpa [mergeList_nil] using hd
  | cons p rest ih =>
      obtain ⟨k₁, mv⟩ := p
      simp only [noDupKeys, Bool.and_eq_true, Option.isNone_iff_eq_none] at hm
      rw [mergeList_cons]
      exact ih (noDupKeys_mergeEntry hd k₁ mv) hm.2

/-- Extensionality for objects with distinct keys: equal key sequences
and equal lookups force equal association lists. -/
theorem assoc_ext {a : JsonData} (ha : noDupKeys a = true) :
    ∀ {b : JsonData}, keysOf a = keysOf b →
      (∀ k, lookupKey a k = lookupKey b k) → a = b := by
  induction a with
  | nil =>
      intro b hk _
      cases b with
      | nil => rfl
      | cons q b' => simp [keysOf] at hk
  | cons p a' ih =>
      intro b hk hl
      obtain ⟨k, v⟩ := p
      cases b with
      | nil => simp [keysOf] at hk
      | cons q b' =>
          obtain ⟨k₂, w⟩ := q
          simp only [keysOf, List.map_cons, List.cons.injEq] at hk
          obtain ⟨hk1, hk2⟩ := hk
          subst hk1
          simp only [noDupKeys, Bool.and_eq_true, Option.isNone_iff_eq_none] at ha
          have hvw : v = w := by
            have h0 := hl k
            simpa [lookupKey] using h0
          subst hvw
          have htail : ∀ k', lookupKey a' k' = lookupKey b' k' := by
            intro k'
            by_cases hkk : k' = k
            · subst hkk
              have hb' : lookupKey b' k' = none := by
                rw [lookupKey_none_iff]
                have hmem : k' ∉ List.map Prod.fst a' := by
                  have h1 := ha.1
                  rw [lookupKey_none_iff] at h1
                  simpa [keysOf] using h1
                rw [hk2] at hmem
                simpa [keysOf] using hmem
              rw [ha.1, hb']
            · have hkk2 : ¬(k = k') := fun h => hkk h.symm
              have h0 := hl k'
              simpa [lookupKey, hkk2] using h0
          have hk2' : keysOf a' = keysOf b' := hk2
          rw [ih ha.2 hk2' htail]

/-! ## Wellformedness extraction and idempotence of the merge -/

theorem wfObj_lookup {d : JsonData} (hw : wfObj d = true) {k : String}
    {v : Json} (h : lookupKey d k = some v) : v.wf = true := by
  induction d with
  | nil => simp [lookupKey] at h
  | cons p rest ih =>
      obtain ⟨k', v'⟩ := p
      simp only [wfObj, Bool.and_eq_true] at hw
      simp only [lookupKey] at h
      split at h
      · cases h
        exact hw.1
      · exact ih hw.2 h

theorem wf_obj_elim {l : JsonData} (h : Json.wf (.obj l) = true) :
    noDupKeys l = true ∧ wfObj l = true := by
  simpa [Json.wf] using h

theorem keys_filter (l : JsonData) (c : String → Bool) :
    keysOf (l.filter fun p => c p.1) = (keysOf l).filter c := by
  induction l with
  | nil => simp [keysOf]
  | cons p rest ih =>
      obtain ⟨pk, pv⟩ := p
      by_cases h : c pk <;> simp [keysOf, List.filter_cons, h] <;>
        simpa [keysOf] using ih

theorem isNone_false_of_mem_keys {d : JsonData} {k : String}
    (h : k ∈ keysOf d) : (lookupKey d k).isNone = false := by
  cases hl : lookupKey d k with
  | none => exact absurd (lookupKey_none_iff.1 hl) (by simp [h])
  | some v => simp

/-- Merging a wellformed dict into itself is the identity. -/
theorem merge_self_fuel : ∀ n : Nat, ∀ d : JsonData, sizeOf d < n →
    noDupKeys d = true → wfObj d = true → mergeList d d = d := by
  intro n
  induction n with
  | zero => intro d h _ _; omega
  | succ n ih =>
      intro d hsize hnd hwf
      refine assoc_ext (noDupKeys_merge hnd hnd) ?_ ?_
      · rw [keys_merge hnd]
        have hfil : (d.filter fun p => (lookupKey d p.1).isNone) = [] := by
          rw [List.filter_eq_nil]
          intro p hp
          obtain ⟨pk, pv⟩ := p
          have hs := lookupKey_isSome_of_mem hp
          cases hl : lookupKey d pk with
          | none => rw [hl] at hs; simp at hs
          | some w => simp [hl]
        rw [hfil]
        simp [keysOf]
      · intro k
        rw [lookup_merge hnd]
        cases hl : lookupKey d k with
        | none => simp [mergeLook]
        | some v =>
            simp only [mergeLook, mergeOpt, Option.some.injEq]
            cases v with
            | obj b =>
                obtain ⟨hb1, hb2⟩ := wf_obj_elim (wfObj_lookup hwf hl)
                have hvsize := lookupKey_sizeOf hl
                have hbsize : sizeOf b < n := by
                  simp at hvsize
                  omega
                simp only [mergeJ]
                rw [ih b hbsize hb1 hb2]
            | null => simp [mergeJ]
            | bool c => simp [mergeJ]
            | num i => simp [mergeJ]
            | str t => simp [mergeJ]
            | arr xs => simp [mergeJ]

/-- `merge_self_fuel` without the fuel parameter. -/
theorem merge_self {d : JsonData} (hnd : noDupKeys d = true)
    (hwf : wfObj d = true) : mergeList d d = d :=
  merge_self_fuel (sizeOf d + 1) d (by omega) hnd hwf

/-- Re-merging a merged dict changes nothing: `merge d (merge d m) =
merge d m` for wellformed `d` and `m`. -/
theorem merge_idem_fuel : ∀ n : Nat, ∀ m d : JsonData, sizeOf m < n →
    noDupKeys d = true → wfObj d = true →
    noDupKeys m = true → wfObj m = true →
    mergeList d (mergeList d m) = mergeList d m := by
  intro n
  induction n with
  | zero => intro m d h _ _ _ _; omega
  | succ n ih =>
      intro m d hsize hnd hwfd hnm hwfm
      have hnr : noDupKeys (mergeList d m) = true := noDupKeys_merge hnd hnm
      refine assoc_ext (noDupKeys_merge hnd hnr) ?_ ?_
      · rw [keys_merge hnr, keys_merge hnm,
          keys_filter (mergeList d m) (fun k2 => (lookupKey d k2).isNone),
          keys_filter m (fun k2 => (lookupKey d k2).isNone),
          keys_merge hnm,
          keys_filter m (fun k2 => (lookupKey d k2).isNone),
          List.filter_append]
        have h1 : (keysOf d).filter (fun k2 => (lookupKey d k2).isNone) = [] := by
          rw [List.filter_eq_nil]
          intro k2 hk
          simp [isNone_false_of_mem_keys hk]
        have h2 : ((keysOf m).filter fun k2 => (lookupKey d k2).isNone).filter
            (fun k2 => (lookupKey d k2).isNone)
            = (keysOf m).filter fun k2 => (lookupKey d k2).isNone := by
          rw [List.filter_eq_self]
          intro k2 hk
          exact (List.mem_filter.1 hk).2
        rw [h1, h2]
        simp
      · intro k
        rw [lookup_merge hnr, lookup_merge hnm]
        cases hmo : lookupKey m k with
        | none =>
            simp only [mergeLook]
            cases hdo : lookupKey d k with
            | none => rfl
            | some w =>
                simp only [mergeOpt, Option.some.injEq]
                cases w with
                | obj b =>
                    obtain ⟨hb1, hb2⟩ := wf_obj_elim (wfObj_lookup hwfd hdo)
                    simp only [mergeJ]
                    rw [merge_self hb1 hb2]
                | null => simp [mergeJ]
                | bool c => simp [mergeJ]
                | num i => simp [mergeJ]
                | str t => simp [mergeJ]
                | arr xs => simp [mergeJ]
        | some mv =>
            simp only [mergeLook, Option.some.injEq]
            cases hdo : lookupKey d k with
            | none => simp [mergeOpt]
            | some dv =>
                simp only [mergeOpt]
                cases dv with
                | obj a =>
                    cases mv with
                    | obj b =>
                        obtain ⟨ha1, ha2⟩ := wf_obj_elim (wfObj_lookup hwfd hdo)
                        obtain ⟨hb1, hb2⟩ := wf_obj_elim (wfObj_lookup hwfm hmo)
                        have hmsize := lookupKey_sizeOf hmo
                        have hbsize : sizeOf b < n := by
                          simp at hmsize
                          omega
                        simp only [mergeJ]
                        rw [ih b a hbsize ha1 ha2 hb1 hb2]
                    | null => simp [mergeJ]
                    | bool c => simp [mergeJ]
                    | num i => simp [mergeJ]
                    | str t => simp [mergeJ]
                    | arr xs => simp [mergeJ]
                | null => simp [mergeJ]
                | bool c => simp [mergeJ]
                | num i => simp [mergeJ]
                | str t => simp [mergeJ]
                | arr xs => simp [mergeJ]

/-- `merge_idem_fuel` without the fuel parameter. -/
theorem merge_idem {d m : JsonData} (hnd : noDupKeys d = true)
    (hwfd : wfObj d = true) (hnm : noDupKeys m = true)
    (hwfm : wfObj m = true) :
    mergeList d (mergeList d m) = mergeList d m :=
  merge_idem_fuel (sizeOf m + 1) m d (by omega) hnd hwfd hnm hwfm

/-! ## Unfolding lemmas for the state machines -/

theorem read_unfold (dflt : JsonData) (s : JState) :
    JSONConfigFile.read dflt s
      = if pyEqData (decodedData s.disk) (mergeList dflt (decodedData s.disk))
        then (mergeList dflt (decodedData s.disk), s)
        else (mergeList dflt (decodedData s.disk),
              { s with pending := some (mergeList dflt (decodedData s.disk)) }) :=
  rfl

theorem read_fst (dflt : JsonData) (s : JState) :
    (JSONConfigFile.read dflt s).1 = mergeList dflt (decodedData s.disk) := by
  rw [read_unfold]
  split <;> rfl

theorem read_snd_disk (dflt : JsonData) (s : JState) :
    (JSONConfigFile.read dflt s).2.disk = s.disk := by
  rw [read_unfold]
  split <;> rfl

theorem read_snd_pending (dflt : JsonData) (s : JState) :
    (JSONConfigFile.read dflt s).2.pending
      = if pyEqData (decodedData s.disk) (mergeList dflt (decodedData s.disk))
        then s.pending
        else some (mergeList dflt (decodedData s.disk)) := by
  rw [read_unfold]
  split <;> simp

theorem pyEqData_nil_iff {l : JsonData} : pyEqData [] l = true ↔ l = [] := by
  constructor
  · intro h
    simp [pyEqData, pyEq, pyEqSub] at h
    exact List.length_eq_zero.1 h.symm
  · intro h
    subst h
    simp [pyEqData, pyEq, pyEqSub]

/-! ## The claims -/

mutual

/-- Recursive key containment: every key present in the first (default)
object is present in the second (result) object, recursively through
nested mappings. -/
def keyPathsIn : JsonData → JsonData → Bool
  | [], _ => true
  | (k, dv) :: rest, r => keyPathIn k dv r && keyPathsIn rest r
termination_by d _ => sizeOf d
decreasing_by
  all_goals simp_wf <;> omega

/-- One default binding's key, and its nested keys, are present in the
result object. -/
def keyPathIn : String → Json → JsonData → Bool
  | k, dv, r =>
      match lookupKey r k with
      | none => false
      | some rv =>
          match dv, rv with
          | .obj d2, .obj r2 => keyPathsIn d2 r2
          | .obj d2, _ => d2.isEmpty
          | _, _ => true
termination_by _ dv _ => sizeOf dv
decreasing_by
  all_goals simp_wf <;> omega

end

/-- C1: `JSONConfigFile.read` returns the recursive merge of the decoded
on-disk mapping `M` into the default mapping `D` — per key of `M`,
recursing when both sides hold mappings and overwriting otherwise, with
keys absent from `M` keeping their defaults — and in particular merging
on-disk `{a: {b: 9}}` into default `{a: {b: 1, c: 2}}` yields
`{a: {b: 9, c: 2}}`. -/
theorem json_read_is_recursive_merge (D M : JsonData) (p : Option JsonData) :
    (JSONConfigFile.read D ⟨.stored M, p⟩).1 = mergeList D M
    ∧ (JSONConfigFile.read [("a", .obj [("b", .num 1), ("c", .num 2)])]
        ⟨.stored [("a", .obj [("b", .num 9)])], none⟩).1
      = [("a", .obj [("b", .num 9), ("c", .num 2)])] := by
  refine ⟨by rw [read_fst]; rfl, ?_⟩
  rw [read_fst]
  simp [decodedData, mergeList, mergeEntry, mergeJ]

/-- C2, counterexample: with default `{a: {b: 1}}` and on-disk content
`{a: 5}`, `read()` returns `{a: 5}` — the decoded scalar overwrites the
default mapping — so the nested default key `b` is not present in the
result: the returned value is not recursively schema-complete. -/
theorem read_not_recursively_complete :
    (JSONConfigFile.read [("a", .obj [("b", .num 1)])]
        ⟨.stored [("a", .num 5)], none⟩).1 = [("a", .num 5)]
    ∧ keyPathsIn [("a", .obj [("b", .num 1)])]
        ((JSONConfigFile.read [("a", .obj [("b", .num 1)])]
          ⟨.stored [("a", .num 5)], none⟩).1) = false := by
  have h1 : (JSONConfigFile.read [("a", .obj [("b", .num 1)])]
      ⟨.stored [("a", .num 5)], none⟩).1 = [("a", .num 5)] := by
    rw [read_fst]
    simp [decodedData, mergeList, mergeEntry, mergeJ]
  refine ⟨h1, ?_⟩
  rw [h1]
  simp [keyPathsIn, keyPathIn, lookupKey]

/-- C2, amended: `read()` on a missing file returns the (non-empty)
default schema exactly, and every top-level key of the default schema is
present in every value `read()` returns; full recursive completeness
fails only where the on-disk file stores a non-mapping in place of a
default mapping (see the counterexample). -/
theorem read_missing_default_toplevel_keys (D : JsonData)
    (p : Option JsonData) (hne : D ≠ []) (s : JState) {k : String}
    (hk : k ∈ keysOf D) :
    (JSONConfigFile.read D ⟨.missing, p⟩).1 = D
    ∧ k ∈ keysOf ((JSONConfigFile.read D s).1) := by
  constructor
  · rw [read_fst]
    exact mergeList_nil D
  · rw [read_fst]
    exact keys_merge_superset _ _ hk

/-- Witness for `read_missing_default_toplevel_keys` at the default
`{a: 1}`, key `a`, and a corrupt on-disk state. -/
theorem read_missing_default_toplevel_keys_witness :
    ([("a", Json.num 1)] : JsonData) ≠ []
    ∧ "a" ∈ keysOf [("a", Json.num 1)]
    ∧ ((JSONConfigFile.read [("a", Json.num 1)] ⟨.missing, none⟩).1
        = [("a", Json.num 1)]
      ∧ "a" ∈ keysOf ((JSONConfigFile.read [("a", Json.num 1)]
          ⟨.corrupt, none⟩).1)) :=
  ⟨by simp, by simp [keysOf],
   read_missing_default_toplevel_keys _ none (by simp) _ (by simp [keysOf])⟩

/-- C3, counterexample: for a document whose default schema is empty
(`JSONConfigFile.default_data` itself, inherited by `Accounts`), reading
a corrupt file returns `{}` and schedules no corrective rewrite — the
merged result equals the empty decoded mapping, so nothing is staged. -/
theorem read_empty_default_no_rewrite :
    (JSONConfigFile.read [] ⟨.corrupt, none⟩).1 = []
    ∧ (JSONConfigFile.read [] ⟨.corrupt, none⟩).2.pending = none := by
  constructor
  · rw [read_fst]
    exact mergeList_nil []
  · rw [read_snd_pending]
    simp [decodedData, mergeList, pyEqData, pyEq, pyEqSub]

/-- C3, amended: `read` never propagates `NotFound` or decode failures:
the decoded content is treated as `{}` and the default schema returned;
a corrective rewrite is staged exactly when the default schema is
non-empty (with an empty default the merged result equals the empty
decoded mapping, so the pending slot is left alone). -/
theorem read_absorbs_failures (dflt : JsonData) (p : Option JsonData)
    (d : JDisk) (h : d = JDisk.missing ∨ d = JDisk.corrupt) :
    (JSONConfigFile.read dflt ⟨d, p⟩).1 = dflt
    ∧ (dflt ≠ [] → (JSONConfigFile.read dflt ⟨d, p⟩).2.pending = some dflt)
    ∧ (dflt = [] → (JSONConfigFile.read dflt ⟨d, p⟩).2.pending = p) := by
  have hd : decodedData d = [] := by
    rcases h with h | h <;> subst h <;> rfl
  have hdisk : decodedData (JState.mk d p).disk = [] := hd
  refine ⟨?_, ?_, ?_⟩
  · rw [read_fst, hdisk, mergeList_nil]
  · intro hne
    rw [read_snd_pending, hdisk, mergeList_nil, if_neg]
    cases hc : pyEqData [] dflt
    · simp
    · exact absurd (pyEqData_nil_iff.1 hc) hne
  · intro he
    subst he
    rw [read_snd_pending, hdisk, mergeList_nil, if_pos]
    exact pyEqData_nil_iff.2 rfl

/-- Witness for `read_absorbs_failures` at default `{a: 1}` and a
missing file. -/
theorem read_absorbs_failures_witness :
    (JDisk.missing = JDisk.missing ∨ JDisk.missing = JDisk.corrupt)
    ∧ ((JSONConfigFile.read [("a", Json.num 1)]
        ⟨JDisk.missing, none⟩).1 = [("a", Json.num 1)]
      ∧ (([("a", Json.num 1)] : JsonData) ≠ []
          → (JSONConfigFile.read [("a", Json.num 1)]
              ⟨JDisk.missing, none⟩).2.pending = some [("a", Json.num 1)])
      ∧ (([("a", Json.num 1)] : JsonData) = []
          → (JSONConfigFile.read [("a", Json.num 1)]
              ⟨JDisk.missing, none⟩).2.pending = none)) :=
  ⟨Or.inl rfl, read_absorbs_failures _ none _ (Or.inl rfl)⟩

theorem flushTick_eq (s : JState) :
    flushTick s = match s.pending with
      | none => s
      | some v => ⟨.stored v, none⟩ := rfl

/-- C9: `read()` twice in succession with no intervening `write` (from a
document with no undelivered pending write), whether or not a flush tick
of the possibly self-staged reconciliation occurs between the two calls,
returns equal values both times — for any wellformed default schema and
any on-disk state. -/
theorem read_idempotent (dflt : JsonData) (d : JDisk) (tickBetween : Bool)
    (h1 : noDupKeys dflt = true) (h2 : wfObj dflt = true)
    (h3 : d.wf = true) :
    (JSONConfigFile.read dflt
        ((if tickBetween then flushTick else id)
          ((JSONConfigFile.read dflt ⟨d, none⟩).2))).1
      = (JSONConfigFile.read dflt ⟨d, none⟩).1 := by
  cases hc : pyEqData (decodedData d) (mergeList dflt (decodedData d)) with
  | true =>
      have hsnd : (JSONConfigFile.read dflt ⟨d, none⟩).2 = ⟨d, none⟩ := by
        rw [read_unfold, if_pos (by exact hc)]
      rw [hsnd]
      have hmid : (if tickBetween then flushTick else id)
          (JState.mk d none) = ⟨d, none⟩ := by
        cases tickBetween <;> simp [flushTick_eq]
      rw [hmid]
  | false =>
      have hsnd : (JSONConfigFile.read dflt ⟨d, none⟩).2
          = ⟨d, some (mergeList dflt (decodedData d))⟩ := by
        rw [read_unfold, if_neg (by simp [hc])]
      rw [hsnd]
      cases tickBetween with
      | false =>
          simp only [if_neg Bool.false_ne_true, id]
          rw [read_fst, read_fst]
      | true =>
          have hflush : (if (true : Bool) = true then flushTick else id)
              (JState.mk d (some (mergeList dflt (decodedData d))))
              = JState.mk (.stored (mergeList dflt (decodedData d))) none :=
            rfl
          rw [hflush, read_fst, read_fst]
          have hwfdata : noDupKeys (decodedData d) = true
              ∧ wfObj (decodedData d) = true := by
            cases d with
            | missing => exact ⟨rfl, rfl⟩
            | corrupt => exact ⟨rfl, rfl⟩
            | stored m =>
                simpa [JDisk.wf, Bool.and_eq_true] using h3
          exact merge_idem h1 h2 hwfdata.1 hwfdata.2

/-- Witness for `read_idempotent`: default `{a: 1}`, missing file, one
flush tick between the two reads. -/
theorem read_idempotent_witness :
    noDupKeys [("a", Json.num 1)] = true
    ∧ wfObj [("a", Json.num 1)] = true
    ∧ JDisk.wf JDisk.missing = true
    ∧ (JSONConfigFile.read [("a", Json.num 1)]
        ((if true then flushTick else id)
          ((JSONConfigFile.read [("a", Json.num 1)]
            ⟨JDisk.missing, none⟩).2))).1
      = (JSONConfigFile.read [("a", Json.num 1)] ⟨JDisk.missing, none⟩).1 :=
  ⟨by simp [noDupKeys, lookupKey], by simp [wfObj, Json.wf], rfl,
   read_idempotent [("a", Json.num 1)] JDisk.missing true
     (by simp [noDupKeys, lookupKey]) (by simp [wfObj, Json.wf]) rfl⟩

/-- C10: `Accounts.delete` with a `user_id` absent from the stored
mapping acts as the identity on the document content: it stages exactly
the reconciled mapping that `read()` returned, removing nothing, and
leaves the on-disk state untouched. -/
theorem delete_absent_identity (s : JState) (uid : String)
    (h : lookupKey ((JSONConfigFile.read [] s).1) uid = none) :
    (Accounts.delete uid s).pending = some ((JSONConfigFile.read [] s).1)
    ∧ (Accounts.delete uid s).disk = s.disk := by
  have hfil : ((JSONConfigFile.read [] s).1.filter fun p => p.1 != uid)
      = (JSONConfigFile.read [] s).1 := by
    rw [List.filter_eq_self]
    intro p hp
    obtain ⟨pk, pv⟩ := p
    have hne : pk ≠ uid := by
      intro he
      subst he
      have hmem : pk ∈ keysOf ((JSONConfigFile.read [] s).1) :=
        List.mem_map_of_mem Prod.fst hp
      exact absurd hmem (lookupKey_none_iff.1 h)
    simp [hne]
  constructor
  · simp [Accounts.delete, JSONConfigFile.write, hfil]
  · simp [Accounts.delete, JSONConfigFile.write, read_snd_disk]

/-- Witness for `delete_absent_identity`: deleting `"b"` from a document
storing `{a: 1}` stages `{a: 1}` back unchanged. -/
theorem delete_absent_identity_witness :
    lookupKey ((JSONConfigFile.read []
        ⟨JDisk.stored [("a", Json.num 1)], none⟩).1) "b" = none
    ∧ ((Accounts.delete "b" ⟨JDisk.stored [("a", Json.num 1)], none⟩).pending
        = some ((JSONConfigFile.read []
            ⟨JDisk.stored [("a", Json.num 1)], none⟩).1)
      ∧ (Accounts.delete "b"
          ⟨JDisk.stored [("a", Json.num 1)], none⟩).disk
        = JDisk.stored [("a", Json.num 1)])
    ∧ (JSONConfigFile.read []
        ⟨JDisk.stored [("a", Json.num 1)], none⟩).1 = [("a", Json.num 1)] :=
  ⟨by rw [read_fst]; simp [decodedData, mergeList, mergeEntry, lookupKey],
   delete_absent_identity ⟨JDisk.stored [("a", Json.num 1)], none⟩ "b"
     (by rw [read_fst]; simp [decodedData, mergeList, mergeEntry, lookupKey]),
   by rw [read_fst]; simp [decodedData, mergeList, mergeEntry]⟩

/-- C7, counterexample: `read` never consults the pending slot, so a
read right after a write — before any flush tick — observes the stale
on-disk content. `Accounts.add "u1"` on a fresh document stages the new
mapping (the pending slot holds `{u1: {...}}`), yet an immediately
following `read()` returns `{}`, which does not contain `"u1"`. -/
theorem read_after_write_is_stale :
    (Accounts.add (fun _ => ⟨"u1", "hs", "tok", "dev"⟩) "u1"
        ⟨.missing, none⟩).pending
      = some [("u1", clientEntry ⟨"u1", "hs", "tok", "dev"⟩)]
    ∧ (JSONConfigFile.read []
        (Accounts.add (fun _ => ⟨"u1", "hs", "tok", "dev"⟩) "u1"
          ⟨.missing, none⟩)).1 = []
    ∧ lookupKey ((JSONConfigFile.read []
        (Accounts.add (fun _ => ⟨"u1", "hs", "tok", "dev"⟩) "u1"
          ⟨.missing, none⟩)).1) "u1" = none := by
  have hadd : Accounts.add (fun _ => ⟨"u1", "hs", "tok", "dev"⟩) "u1"
      ⟨.missing, none⟩
      = ⟨.missing, some [("u1", clientEntry ⟨"u1", "hs", "tok", "dev"⟩)]⟩ := by
    simp [Accounts.add, JSONConfigFile.write, read_unfold, decodedData,
      mergeList, pyEqData, pyEq, pyEqSub, setKey]
  have hread : (JSONConfigFile.read []
      (Accounts.add (fun _ => ⟨"u1", "hs", "tok", "dev"⟩) "u1"
        ⟨.missing, none⟩)).1 = [] := by
    rw [read_fst, hadd]
    simp [decodedData, mergeList]
  exact ⟨by rw [hadd], hread, by rw [hread]; rfl⟩

/-- C7, amended: read-your-write holds only across a flush tick: after
`add("u1")` and a flush, `read()` contains `"u1"` with the
`homeserver`/`token`/`device_id` fields; after `delete("u1")` and a
flush, `read()` no longer contains `"u1"`. -/
theorem accounts_roundtrip_after_flush (hs tok dev : String) :
    lookupKey ((JSONConfigFile.read []
        (flushTick (Accounts.add (fun _ => ⟨"u1", hs, tok, dev⟩) "u1"
          ⟨.missing, none⟩))).1) "u1"
      = some (.obj [("homeserver", .str hs), ("token", .str tok),
                    ("device_id", .str dev)])
    ∧ lookupKey ((JSONConfigFile.read []
        (flushTick (Accounts.delete "u1"
          (JSONConfigFile.read []
            (flushTick (Accounts.add (fun _ => ⟨"u1", hs, tok, dev⟩) "u1"
              ⟨.missing, none⟩))).2))).1) "u1" = none := by
  have hadd : Accounts.add (fun _ => ⟨"u1", hs, tok, dev⟩) "u1"
      ⟨.missing, none⟩
      = ⟨.missing, some [("u1", clientEntry ⟨"u1", hs, tok, dev⟩)]⟩ := by
    simp [Accounts.add, JSONConfigFile.write, read_unfold, decodedData,
      mergeList, pyEqData, pyEq, pyEqSub, setKey]
  have hs1 : flushTick (Accounts.add (fun _ => ⟨"u1", hs, tok, dev⟩) "u1"
      ⟨.missing, none⟩)
      = ⟨.stored [("u1", clientEntry ⟨"u1", hs, tok, dev⟩)], none⟩ := by
    rw [hadd, flushTick_eq]
  have hmv : mergeList [] [("u1", clientEntry ⟨"u1", hs, tok, dev⟩)]
      = [("u1", clientEntry ⟨"u1", hs, tok, dev⟩)] := by
    simp [mergeList, mergeEntry]
  have hr1 : (JSONConfigFile.read []
      (flushTick (Accounts.add (fun _ => ⟨"u1", hs, tok, dev⟩) "u1"
        ⟨.missing, none⟩))).1
      = [("u1", clientEntry ⟨"u1", hs, tok, dev⟩)] := by
    rw [read_fst, hs1]
    exact hmv
  refine ⟨?_, ?_⟩
  · rw [hr1]
    simp [lookupKey, clientEntry]
  · have hdisk1 : (JSONConfigFile.read []
        (flushTick (Accounts.add (fun _ => ⟨"u1", hs, tok, dev⟩) "u1"
          ⟨.missing, none⟩))).2.disk
        = JDisk.stored [("u1", clientEntry ⟨"u1", hs, tok, dev⟩)] := by
      rw [read_snd_disk, hs1]
    have hr3 : (JSONConfigFile.read []
        ((JSONConfigFile.read []
          (flushTick (Accounts.add (fun _ => ⟨"u1", hs, tok, dev⟩) "u1"
            ⟨.missing, none⟩))).2)).1
        = [("u1", clientEntry ⟨"u1", hs, tok, dev⟩)] := by
      rw [read_fst, hdisk1]
      exact hmv
    have hpend : (Accounts.delete "u1"
        (JSONConfigFile.read []
          (flushTick (Accounts.add (fun _ => ⟨"u1", hs, tok, dev⟩) "u1"
            ⟨.missing, none⟩))).2).pending = some [] := by
      simp [Accounts.delete, JSONConfigFile.write, hr3]
    have hflush2 : flushTick (Accounts.delete "u1"
        (JSONConfigFile.read []
          (flushTick (Accounts.add (fun _ => ⟨"u1", hs, tok, dev⟩) "u1"
            ⟨.missing, none⟩))).2) = ⟨.stored [], none⟩ := by
      rw [flushTick_eq, hpend]
    rw [hflush2, read_fst]
    simp [decodedData, mergeList, lookupKey]

/-- C4: the pending slot holds at most one value and a newer `write`
always overwrites the older pending value; `write(v1); write(v2)` before
the next flush tick causes exactly one disk write, containing `v2`, and
`v1` is never flushed during the burst. -/
theorem write_coalescing (s : CState) (v1 v2 : String)
    (h : s.loopAlive = true) :
    (∀ (v : String) (t : CState), (ConfigFile.write v t).toWrite = some v)
    ∧ (baseRun [.write v1, .write v2, .tick true] s).flushed
        = s.flushed ++ [v2]
    ∧ (baseRun [.write v1, .write v2, .tick true] s).disk = some v2
    ∧ (baseRun [.write v1, .write v2, .tick true] s).toWrite = none
    ∧ (v1 ≠ v2 → v1 ∉ ((baseRun [.write v1, .write v2, .tick true]
        s).flushed.drop s.flushed.length)) := by
  have hrun : baseRun [.write v1, .write v2, .tick true] s
      = { s with toWrite := none, disk := some v2,
                 flushed := s.flushed ++ [v2] } := by
    simp [baseRun, baseStep, ConfigFile.write, writeLoopTick, h]
  refine ⟨fun v t => rfl, ?_, ?_, ?_, ?_⟩
  · rw [hrun]
  · rw [hrun]
  · rw [hrun]
  · intro hne
    rw [hrun]
    simp [List.drop_left, hne]

/-- Witness for `write_coalescing` on a fresh document. -/
theorem write_coalescing_witness :
    (CState.mk none none [] true).loopAlive = true
    ∧ ((∀ (v : String) (t : CState), (ConfigFile.write v t).toWrite = some v)
      ∧ (baseRun [.write "a", .write "b", .tick true]
          ⟨none, none, [], true⟩).flushed = [] ++ ["b"]
      ∧ (baseRun [.write "a", .write "b", .tick true]
          ⟨none, none, [], true⟩).disk = some "b"
      ∧ (baseRun [.write "a", .write "b", .tick true]
          ⟨none, none, [], true⟩).toWrite = none
      ∧ ("a" ≠ "b" → "a" ∉ ((baseRun [.write "a", .write "b", .tick true]
          ⟨none, none, [], true⟩).flushed.drop ([] : List String).length))) :=
  ⟨rfl, write_coalescing ⟨none, none, [], true⟩ "a" "b" rfl⟩

/-- C8, counterexample: a failing flush kills the write loop. From a
state with pending value `"x"`, a tick whose file I/O raises leaves the
loop dead; the next (would-be) tick flushes nothing even though the
pending value is still there — the loop does not proceed to the next
tick and keep running. -/
theorem write_loop_dies_on_io_error :
    (writeLoopTick false ⟨some "x", none, [], true⟩).loopAlive = false
    ∧ (baseRun [.tick false, .tick true]
        ⟨some "x", none, [], true⟩).flushed = []
    ∧ (baseRun [.tick false, .tick true]
        ⟨some "x", none, [], true⟩).toWrite = some "x" := by
  refine ⟨rfl, ?_, ?_⟩ <;> simp [baseRun, baseStep, writeLoopTick]

/-- C8, amended: when a flush attempt fails, the exception propagates
out of `_write_loop`, terminating the background task: the pending value
is retained but never flushed again (subsequent ticks are no-ops), the
on-disk file and flush history are untouched, and the failure is not
surfaced to callers of `write`, which continues to stage values. -/
theorem write_loop_failure (s : CState) (v : String)
    (halive : s.loopAlive = true) (hpend : s.toWrite = some v) :
    (writeLoopTick false s).loopAlive = false
    ∧ (writeLoopTick false s).toWrite = some v
    ∧ (writeLoopTick false s).flushed = s.flushed
    ∧ (writeLoopTick false s).disk = s.disk
    ∧ (∀ b, writeLoopTick b (writeLoopTick false s) = writeLoopTick false s)
    ∧ (∀ w, (ConfigFile.write w (writeLoopTick false s)).toWrite = some w) := by
  have hstep : writeLoopTick false s = { s with loopAlive := false } := by
    simp [writeLoopTick, halive, hpend]
  rw [hstep]
  exact ⟨rfl, hpend, rfl, rfl, fun b => by simp [writeLoopTick],
    fun w => rfl⟩

/-- Witness for `write_loop_failure`. -/
theorem write_loop_failure_witness :
    (CState.mk (some "x") none [] true).loopAlive = true
    ∧ (CState.mk (some "x") none [] true).toWrite = some "x"
    ∧ ((writeLoopTick false ⟨some "x", none, [], true⟩).loopAlive = false
      ∧ (writeLoopTick false ⟨some "x", none, [], true⟩).toWrite = some "x"
      ∧ (writeLoopTick false ⟨some "x", none, [], true⟩).flushed = []
      ∧ (writeLoopTick false ⟨some "x", none, [], true⟩).disk = none
      ∧ (∀ b, writeLoopTick b (writeLoopTick false ⟨some "x", none, [], true⟩)
          = writeLoopTick false ⟨some "x", none, [], true⟩)
      ∧ (∀ w, (ConfigFile.write w
          (writeLoopTick false ⟨some "x", none, [], true⟩)).toWrite
            = some w)) :=
  ⟨rfl, rfl, write_loop_failure ⟨some "x", none, [], true⟩ "x" rfl rfl⟩

/-- C6: reading a `Theme` whose resolved path does not exist does NOT
create the file: `Theme.read` only stages the bundled default into the
pending slot (flushed up to a second later by the write loop) and then
immediately calls `path.read_text()` on the still-missing file, which
raises `FileNotFoundError` instead of returning the converted default
content. -/
theorem theme_read_missing_raises (convert : String → String)
    (defaultTheme : String) (s : CState) (h : s.disk = none) :
    (Theme.read convert defaultTheme s).1 = Except.error ()
    ∧ (Theme.read convert defaultTheme s).2.toWrite = some defaultTheme
    ∧ (Theme.read convert defaultTheme s).2.disk = none := by
  refine ⟨?_, ?_, ?_⟩ <;>
    simp [Theme.read, ConfigFile.read, ConfigFile.write, h]

/-- Witness for `theme_read_missing_raises` on a fresh profile. -/
theorem theme_read_missing_raises_witness :
    (CState.mk none none [] true).disk = none
    ∧ ((Theme.read id "default theme" ⟨none, none, [], true⟩).1
        = Except.error ()
      ∧ (Theme.read id "default theme" ⟨none, none, [], true⟩).2.toWrite
        = some "default theme"
      ∧ (Theme.read id "default theme" ⟨none, none, [], true⟩).2.disk
        = none) :=
  ⟨rfl, theme_read_missing_raises id "default theme"
    ⟨none, none, [], true⟩ rfl⟩

/-- C5: `read` stages a write of the merged result exactly when the
merged result differs (Python `!=`) from the decoded on-disk content;
when they are equal the state is left untouched. Illustrated on a
default-injecting read (stages) and an overwrite-only read (does not). -/
theorem read_stages_iff_changed (dflt : JsonData) (s : JState) :
    ((pyEqData (decodedData s.disk) ((JSONConfigFile.read dflt s).1) = false
        → (JSONConfigFile.read dflt s).2.pending
            = some ((JSONConfigFile.read dflt s).1))
      ∧ (pyEqData (decodedData s.disk) ((JSONConfigFile.read dflt s).1) = true
        → (JSONConfigFile.read dflt s).2 = s))
    ∧ (JSONConfigFile.read [("a", .num 1)] ⟨.missing, none⟩).2.pending
        = some [("a", .num 1)]
    ∧ (JSONConfigFile.read [("a", .num 1)]
        ⟨.stored [("a", .num 2)], none⟩).2.pending = none := by
  refine ⟨⟨?_, ?_⟩, ?_, ?_⟩
  · intro h
    rw [read_fst] at h ⊢
    rw [read_snd_pending, if_neg]
    simp [h]
  · intro h
    rw [read_fst] at h
    rw [read_unfold, if_pos h]
  · rw [read_snd_pending]
    rw [if_neg]
    · simp [decodedData, mergeList]
    · simp [decodedData, mergeList, pyEqData, pyEq, pyEqSub]
  · rw [read_snd_pending, if_pos]
    simp [decodedData, mergeList, mergeEntry, mergeJ, pyEqData, pyEq,
      pyEqSub, lookupKey]

/-- Witness for `read_stages_iff_changed`: a default-injecting read
stages the merged result. -/
theorem read_stages_iff_changed_witness :
    pyEqData (decodedData (JState.mk JDisk.missing none).disk)
        ((JSONConfigFile.read [("a", Json.num 1)] ⟨JDisk.missing, none⟩).1)
      = false
    ∧ (JSONConfigFile.read [("a", Json.num 1)]
        ⟨JDisk.missing, none⟩).2.pending
      = some ((JSONConfigFile.read [("a", Json.num 1)]
          ⟨JDisk.missing, none⟩).1) := by
  have hfalse : pyEqData (decodedData (JState.mk JDisk.missing none).disk)
      ((JSONConfigFile.read [("a", Json.num 1)] ⟨JDisk.missing, none⟩).1)
      = false := by
    rw [read_fst]
    simp [decodedData, mergeList, pyEqData, pyEq, pyEqSub]
  exact ⟨hfalse,
    (read_stages_iff_changed [("a", Json.num 1)] ⟨JDisk.missing, none⟩).1.1
      hfalse⟩
